import Mathlib

/-!
# Verification of the `bevy-web3` wallet bridge (`src/lib.rs`)

Shallow embedding of the async-to-sync wallet bridge: the four result
channels of the `EthWallet` resource, its non-blocking pollers
(`recv_account`, `recv_signature`, `recv_transaction`, `recv_call`), the
background task spawned by `connect`, the synchronous part of `sign`, and
the `Contract` ABI wrapper (`encode` / `decode` over ethabi).

Machine bytes are modelled as `Nat` (values `< 256` where relevant),
`u64` as `Nat` with explicit bounds, Rust panics as `Option.none` /
a dedicated `panic` outcome, and fallible operations as `Except`.
-/

namespace BevyWeb3

/-- A 20-byte Ethereum address (`web3::types::H160`), as its byte list. -/
abbrev H160 := List Nat

/-- A 32-byte transaction hash (`web3::types::H256`), as its byte list. -/
abbrev H256 := List Nat

/-- A 65-byte signature (`web3::types::H520`), as its byte list. -/
abbrev H520 := List Nat

/-! ## Hex rendering (`chamomile_types::PeerId::to_hex`)

`recv_account` wraps the first account's 20 bytes in a `PeerId` and
renders it as `"0x"` followed by two lowercase hex digits per byte
(Rust's `format!("{:02x}", byte)` for byte values `< 256`). -/

/-- One lowercase hex digit for a value `< 16`. -/
def hexDigitChar (n : Nat) : Char :=
  if n < 10 then Char.ofNat ('0'.toNat + n)
  else Char.ofNat ('a'.toNat + (n - 10))

/-- Two lowercase hex digits for one byte (`format!("\x7b:02x\x7d", b)` for `b < 256`). -/
def byteToHex (b : Nat) : List Char :=
  [hexDigitChar (b / 16 % 16), hexDigitChar (b % 16)]

/-- `PeerId::to_hex`: `"0x"` followed by the bytes in lowercase hex. -/
def peerIdToHex (bytes : List Nat) : String :=
  ⟨'0' :: 'x' :: (bytes.map byteToHex).flatten⟩

/-! ## Channels (`async_channel` unbounded pair)

One `Channel` models a `(Sender, Receiver)` pair of an unbounded
`async_channel`: a FIFO queue of buffered messages plus a closed flag.
Per the `async_channel` semantics: `try_recv` delivers buffered messages
even after the channel is closed, and reports `Closed` only when the
queue is empty and the channel is closed; `send` fails (enqueues
nothing) once the channel is closed; a closed channel never reopens. -/

/-- `async_channel::TryRecvError`. -/
inductive TryRecvError where
  | empty
  | closed
deriving DecidableEq, Repr

/-- The crate-local error type (`RecvError` in `lib.rs`). -/
inductive RecvError where
  | empty
  | closed
deriving DecidableEq, Repr

/-- The `From<TryRecvError> for RecvError` impl (`lib.rs` lines 23–30). -/
def RecvError.ofTryRecvError : TryRecvError → RecvError
  | .empty => .empty
  | .closed => .closed

/-- One unbounded channel (sender + receiver endpoints). -/
structure Channel (α : Type) where
  queue : List α
  closed : Bool
deriving DecidableEq, Repr

/-- `Receiver::try_recv`: the oldest buffered message if any (even when
closed), otherwise `Closed` if the channel is closed, else `Empty`. -/
def Channel.tryRecv {α : Type} (ch : Channel α) : Except TryRecvError (α × Channel α) :=
  match ch.queue with
  | [] => .error (if ch.closed then .closed else .empty)
  | x :: rest => .ok (x, { ch with queue := rest })

/-- `Sender::send` on an unbounded channel: enqueue unless closed
(a send on a closed channel fails and enqueues nothing). -/
def Channel.send {α : Type} (ch : Channel α) (x : α) : Channel α :=
  if ch.closed then ch else { ch with queue := ch.queue ++ [x] }

/-- Sender-side teardown: the channel becomes (irrevocably) closed. -/
def Channel.close {α : Type} (ch : Channel α) : Channel α :=
  { ch with closed := true }

/-! ## The `EthWallet` resource -/

/-- The `EthWallet` bevy resource (`lib.rs` lines 40–52): last-applied
account list and chain id, plus the four channels (each field merges the
stored `_tx` / `_rx` endpoint pair of `lib.rs` into one channel). -/
structure EthWallet where
  accounts : List H160
  chain_id : Nat
  account_ch : Channel (List H160 × Nat)
  signature_ch : Channel H520
  transaction_ch : Channel H256
  call_ch : Channel (List Nat)
deriving DecidableEq, Repr

/-- `init_eth_wallet` (`lib.rs` lines 54–72): empty account list,
chain id `0`, four freshly created (open, empty) unbounded channels. -/
def init_eth_wallet : EthWallet :=
  { accounts := []
    chain_id := 0
    account_ch := ⟨[], false⟩
    signature_ch := ⟨[], false⟩
    transaction_ch := ⟨[], false⟩
    call_ch := ⟨[], false⟩ }

/-- Outcome of a poller call: a returned value, a returned `RecvError`,
or a Rust panic (abnormal termination, no value returned). -/
inductive PollOutcome (α : Type) where
  | ok : α → PollOutcome α
  | err : RecvError → PollOutcome α
  | panic : PollOutcome α
deriving DecidableEq, Repr

/-- `EthWallet::recv_account` (`lib.rs` lines 149–156): `try_recv` on the
account channel; on a message `(addrs, chain)` it assigns
`self.accounts = addrs` and `self.chain_id = chain`, then returns
`(PeerId(addrs[0]).to_hex(), chain)`.  The indexing `self.accounts[0]`
panics when `addrs` is empty — after the two assignments already
happened.  On a `TryRecvError` the error converts via `From` and nothing
is assigned. -/
def EthWallet.recv_account (w : EthWallet) : PollOutcome (String × Nat) × EthWallet :=
  match w.account_ch.tryRecv with
  | .error e => (.err (RecvError.ofTryRecvError e), w)
  | .ok ((addrs, chain), ch') =>
    let w' := { w with accounts := addrs, chain_id := chain, account_ch := ch' }
    match addrs with
    | [] => (.panic, w')
    | a :: _ => (.ok (peerIdToHex a, chain), w')

/-- `EthWallet::recv_signature` (`lib.rs` lines 158–160): `try_recv` on
the signature channel, error converted via `From`; no other field is
touched. -/
def EthWallet.recv_signature (w : EthWallet) : PollOutcome H520 × EthWallet :=
  match w.signature_ch.tryRecv with
  | .error e => (.err (RecvError.ofTryRecvError e), w)
  | .ok (sig, ch') => (.ok sig, { w with signature_ch := ch' })

/-- `EthWallet::recv_transaction` (`lib.rs` lines 162–164). -/
def EthWallet.recv_transaction (w : EthWallet) : PollOutcome H256 × EthWallet :=
  match w.transaction_ch.tryRecv with
  | .error e => (.err (RecvError.ofTryRecvError e), w)
  | .ok (h, ch') => (.ok h, { w with transaction_ch := ch' })

/-- `EthWallet::recv_call` (`lib.rs` lines 166–168). -/
def EthWallet.recv_call (w : EthWallet) : PollOutcome (List Nat) × EthWallet :=
  match w.call_ch.tryRecv with
  | .error e => (.err (RecvError.ofTryRecvError e), w)
  | .ok (bs, ch') => (.ok bs, { w with call_ch := ch' })

/-! ## Address parsing (`str::parse::<H160>()`, fixed-hash `FromStr`)

`H160::from_str` strips an optional `"0x"`, then decodes exactly 20
bytes of hex (40 hex digits, either case); anything else is an error. -/

/-- The value of one hex digit character, if it is one. -/
def hexVal (c : Char) : Option Nat :=
  if '0' ≤ c ∧ c ≤ '9' then some (c.toNat - '0'.toNat)
  else if 'a' ≤ c ∧ c ≤ 'f' then some (c.toNat - 'a'.toNat + 10)
  else if 'A' ≤ c ∧ c ≤ 'F' then some (c.toNat - 'A'.toNat + 10)
  else none

/-- Decode a hex digit sequence into bytes, two digits per byte;
fails on a non-hex digit or an odd number of digits. -/
def hexPairs : List Char → Option (List Nat)
  | [] => some []
  | [_] => none
  | c1 :: c2 :: rest =>
    match hexVal c1, hexVal c2, hexPairs rest with
    | some h, some l, some bs => some ((h * 16 + l) :: bs)
    | _, _, _ => none

/-- `H160` `FromStr`: optional `"0x"` prefix, then exactly 40 hex digits. -/
def parseH160 (s : String) : Option H160 :=
  let cs := s.toList
  let cs := if cs.take 2 = ['0', 'x'] then cs.drop 2 else cs
  match hexPairs cs with
  | some bs => if bs.length = 20 then some bs else none
  | none => none

/-! ## `connect` and `sign` -/

/-- What the task spawned by `EthWallet::connect` (`lib.rs` lines 75–91)
sends on the account channel, as a function of the environment:
whether a provider was obtained (`Provider::default().unwrap().unwrap()`),
and the provider's replies to `request_accounts` / `chain_id` (`none`
models a failed call, whose `.unwrap()` kills the task).  `chain_id`
returns a `U256`; `.as_u64()` (evaluated only inside the non-empty
branch) panics unless the value fits in 64 bits.  The result is the at
most one message the task sends: `none` means the task ends (normally or
by panic) without sending anything — no error value exists on this
channel's payload type. -/
def connect_task (provider_ok : Bool) (accounts_resp : Option (List H160))
    (chain_resp : Option Nat) : Option (List H160 × Nat) :=
  if provider_ok then
    match accounts_resp with
    | none => none
    | some addrs =>
      match chain_resp with
      | none => none
      | some chain =>
        if addrs.isEmpty then none
        else if chain < 2 ^ 64 then some (addrs, chain) else none
  else none

/-- The payload captured by the task that `EthWallet::sign` spawns. -/
structure SignRequest where
  account : H160
  message : String
deriving DecidableEq, Repr

/-- The synchronous part of `EthWallet::sign` (`lib.rs` lines 93–94):
`let account = account.parse().unwrap();` — a parse failure panics
(abnormal termination, modelled as `none`) before any task is spawned;
on success the wallet itself is untouched and a task carrying the parsed
address and the message is spawned (modelled by returning its payload). -/
def EthWallet.sign (_w : EthWallet) (account : String) (msg : String) :
    Option SignRequest :=
  match parseH160 account with
  | none => none
  | some a => some ⟨a, msg⟩

/-! ## The session's transition system

Events that can hit a live session, each acting on the `EthWallet`
state: a completed background task delivering its message (for the
account channel, only messages `connect_task` can produce; the other
tasks forward whatever the provider returned), one of the four pollers
running, or a channel's sender side being torn down. -/

/-- One atomic event on the session state. -/
inductive Step : EthWallet → EthWallet → Prop where
  | connect_send (w : EthWallet) (pok : Bool) (ar : Option (List H160))
      (cr : Option Nat) (v : List H160 × Nat)
      (h : connect_task pok ar cr = some v) :
      Step w { w with account_ch := w.account_ch.send v }
  | sign_send (w : EthWallet) (sig : H520) :
      Step w { w with signature_ch := w.signature_ch.send sig }
  | transaction_send (w : EthWallet) (h : H256) :
      Step w { w with transaction_ch := w.transaction_ch.send h }
  | call_send (w : EthWallet) (bs : List Nat) :
      Step w { w with call_ch := w.call_ch.send bs }
  | poll_account (w : EthWallet) : Step w w.recv_account.2
  | poll_signature (w : EthWallet) : Step w w.recv_signature.2
  | poll_transaction (w : EthWallet) : Step w w.recv_transaction.2
  | poll_call (w : EthWallet) : Step w w.recv_call.2
  | close_account (w : EthWallet) :
      Step w { w with account_ch := w.account_ch.close }
  | close_signature (w : EthWallet) :
      Step w { w with signature_ch := w.signature_ch.close }
  | close_transaction (w : EthWallet) :
      Step w { w with transaction_ch := w.transaction_ch.close }
  | close_call (w : EthWallet) :
      Step w { w with call_ch := w.call_ch.close }

/-- Zero or more session events. -/
def Reach (w w' : EthWallet) : Prop := Relation.ReflTransGen Step w w'

/-- A session state reachable from initialization. -/
def Reachable (w : EthWallet) : Prop := Reach init_eth_wallet w

/-! ## ABI values and types (ethabi subset)

The `Contract` wrapper delegates to `ethabi`.  We embed the fragment of
`ethabi`'s type universe that the wrapper is exercised with here:
`address`, `uint<n>`, `bool`, `bytes<n>` (fixed) and `bytes` (dynamic).
Encoding and decoding are translated from `ethabi`'s `encoder.rs` /
`decoder.rs` (head/tail encoding, 32-byte words, big-endian integers,
offsets for dynamic data). -/

/-- `ethabi::ParamType` (modelled fragment). -/
inductive ParamType where
  | address
  | uint (size : Nat)
  | bool
  | fixedBytes (size : Nat)
  | bytes
deriving DecidableEq, Repr

/-- `ethabi::Token` (modelled fragment); `uint` carries the `U256` value
as a `Nat`. -/
inductive Token where
  | address (a : H160)
  | uint (n : Nat)
  | bool (b : Bool)
  | fixedBytes (bs : List Nat)
  | bytes (bs : List Nat)
deriving DecidableEq, Repr

/-- `Token::type_check` (per-token, `ethabi` `token/mod.rs`): an address
token against `Address`, any `uint` token against any `Uint` size, a
fixed-bytes token against `FixedBytes(size)` when `size >= len`, a bytes
token against `Bytes`. -/
def Token.type_check : Token → ParamType → Bool
  | .address _, .address => true
  | .uint _, .uint _ => true
  | .bool _, .bool => true
  | .fixedBytes bs, .fixedBytes size => bs.length ≤ size
  | .bytes _, .bytes => true
  | _, _ => false

/-- `Token::types_check`: equal lengths and pointwise `type_check`. -/
def Token.types_check (tokens : List Token) (params : List ParamType) : Bool :=
  tokens.length = params.length &&
    (List.zip tokens params).all fun tp => tp.1.type_check tp.2

/-- Big-endian bytes of `n`, exactly `w` bytes (truncating above `256^w`). -/
def natToBE : Nat → Nat → List Nat
  | 0, _ => []
  | w + 1, n => natToBE w (n / 256) ++ [n % 256]

/-- The `Nat` denoted by big-endian bytes. -/
def beToNat (bs : List Nat) : Nat :=
  bs.foldl (fun acc b => acc * 256 + b) 0

/-- Round a byte count up to a multiple of the 32-byte word size. -/
def roundUp32 (n : Nat) : Nat := (n + 31) / 32 * 32

/-- `ethabi` `pad_bytes` tail data: right-pad with zeros to whole words. -/
def rightPad32 (bs : List Nat) : List Nat :=
  bs ++ List.replicate (roundUp32 bs.length - bs.length) 0

/-- Is the token's encoding dynamic (offset in the head, data in the
tail)?  In the modelled fragment only `bytes` is dynamic
(`ethabi` `mediate_token`: `Bytes → Mediate::Prefixed`). -/
def Token.isDynamic : Token → Bool
  | .bytes _ => true
  | _ => false

/-- The head words of a static token (`ethabi` `encode_token`):
an address is left-padded to a word, a uint is the 32-byte big-endian
value, a bool is `0`/`1` in a word, fixed bytes are right-padded. -/
def encodeStatic : Token → List Nat
  | .address a => List.replicate 12 0 ++ a
  | .uint n => natToBE 32 n
  | .bool b => natToBE 32 (if b then 1 else 0)
  | .fixedBytes bs => rightPad32 bs
  | .bytes _ => []

/-- The tail bytes of a token: dynamic `bytes` encode as a length word
followed by the right-padded data; static tokens have no tail. -/
def tailEnc : Token → List Nat
  | .bytes bs => natToBE 32 bs.length ++ rightPad32 bs
  | t => (fun _ => []) t

/-- Head length in bytes (`Mediate::head_len`): one offset word for a
dynamic token, the static words otherwise. -/
def headLen (t : Token) : Nat :=
  if t.isDynamic then 32 else (encodeStatic t).length

/-- Total head length of a token list (`encode_head_tail`'s `heads_len`). -/
def headsLen (ts : List Token) : Nat := (ts.map headLen).sum

/-- Total tail length of a token list. -/
def tailsLen (ts : List Token) : Nat := (ts.map fun t => (tailEnc t).length).sum

/-- `encode_head_tail`'s fold: given the running absolute offset of the
next tail, produce the concatenated heads and the concatenated tails.
A dynamic token's head is the offset word pointing at its tail. -/
def encodeAux : List Token → Nat → List Nat × List Nat
  | [], _ => ([], [])
  | t :: ts, off =>
    let tl := tailEnc t
    let h := if t.isDynamic then natToBE 32 off else encodeStatic t
    let rest := encodeAux ts (off + tl.length)
    (h ++ rest.1, tl ++ rest.2)

/-- `ethabi::encode`: heads (offsets starting past all heads) then tails. -/
def abi_encode (ts : List Token) : List Nat :=
  (encodeAux ts (headsLen ts)).1 ++ (encodeAux ts (headsLen ts)).2

/-- `ethabi::Error` (modelled fragment): `InvalidName` for a missing
function or undecodable empty input, `InvalidData` for a failed
type/zero-padding/bounds check. -/
inductive AbiError where
  | invalidName (msg : String)
  | invalidData
deriving DecidableEq, Repr

/-- A byte slice of length `n` at offset `off` (in bounds). -/
def slice32 (data : List Nat) (off n : Nat) : List Nat :=
  (data.drop off).take n

/-- `peek_32_bytes`: the word at `off`, or `InvalidData` out of bounds. -/
def peekWord (data : List Nat) (off : Nat) : Except AbiError (List Nat) :=
  if off + 32 ≤ data.length then .ok (slice32 data off 32) else .error .invalidData

/-- `take_bytes`: `len` bytes at `off`, or `InvalidData` out of bounds. -/
def takeBytes (data : List Nat) (off len : Nat) : Except AbiError (List Nat) :=
  if off + len ≤ data.length then .ok (slice32 data off len) else .error .invalidData

/-- `check_zeroes` as a predicate: all bytes zero. -/
def allZero (bs : List Nat) : Bool := bs.all fun b => b = 0

/-- `as_usize`: a word denotes a usize offset/length if its first 28
bytes are zero; the value is the big-endian tail. -/
def asUsize (w : List Nat) : Except AbiError Nat :=
  if allZero (w.take 28) then .ok (beToNat (w.drop 28)) else .error .invalidData

/-- `as_bool`: the first 31 bytes must be zero; the value is whether the
last byte equals `1`. -/
def asBool (w : List Nat) : Except AbiError Bool :=
  if allZero (w.take 31) then .ok (w.getD 31 0 == 1) else .error .invalidData

/-- Result of decoding one parameter (`ethabi` `DecodeResult`). -/
structure DecodeResult where
  token : Token
  newOffset : Nat
deriving DecidableEq, Repr

/-- `ethabi` `decode_param` on the modelled fragment: static types read
one word at the cursor; `bytes` reads an offset word, then a length word
and the data at that absolute offset.  The cursor always advances by one
word. -/
def decodeParam (ty : ParamType) (data : List Nat) (off : Nat) :
    Except AbiError DecodeResult :=
  match ty with
  | .address =>
    match peekWord data off with
    | .error e => .error e
    | .ok w => .ok ⟨.address (w.drop 12), off + 32⟩
  | .uint _ =>
    match peekWord data off with
    | .error e => .error e
    | .ok w => .ok ⟨.uint (beToNat w), off + 32⟩
  | .bool =>
    match peekWord data off with
    | .error e => .error e
    | .ok w =>
      match asBool w with
      | .error e => .error e
      | .ok b => .ok ⟨.bool b, off + 32⟩
  | .fixedBytes len =>
    match takeBytes data off len with
    | .error e => .error e
    | .ok bs => .ok ⟨.fixedBytes bs, off + 32⟩
  | .bytes =>
    match peekWord data off with
    | .error e => .error e
    | .ok ow =>
      match asUsize ow with
      | .error e => .error e
      | .ok dynOff =>
        match peekWord data dynOff with
        | .error e => .error e
        | .ok lw =>
          match asUsize lw with
          | .error e => .error e
          | .ok len =>
            match takeBytes data (dynOff + 32) len with
            | .error e => .error e
            | .ok bs => .ok ⟨.bytes bs, off + 32⟩

/-- The sequential parameter loop of `ethabi::decode`. -/
def decodeLoop : List ParamType → List Nat → Nat → Except AbiError (List Token)
  | [], _, _ => .ok []
  | ty :: tys, data, off =>
    match decodeParam ty data off with
    | .error e => .error e
    | .ok r =>
      match decodeLoop tys data r.newOffset with
      | .error e => .error e
      | .ok rest => .ok (r.token :: rest)

/-- `ParamType::is_empty_bytes_valid_encoding` (modelled fragment):
only `FixedBytes(0)` accepts an empty encoding. -/
def ParamType.isEmptyBytesValidEncoding : ParamType → Bool
  | .fixedBytes n => n = 0
  | _ => false

/-- `ethabi::decode`: empty input is rejected up front unless every
parameter accepts an empty encoding; then the sequential loop runs from
offset `0`. -/
def abi_decode (tys : List ParamType) (data : List Nat) :
    Except AbiError (List Token) :=
  if ¬ (tys.all ParamType.isEmptyBytesValidEncoding) ∧ data = [] then
    .error (.invalidName "attempted to decode empty bytes")
  else decodeLoop tys data 0

/-! ## Keccak-256 (`tiny-keccak`, used by `ethabi::short_signature`) -/

/-- The set bits of a 64-bit lane complement: `2^64 - 1`. -/
def lane64Mask : Nat := 2 ^ 64 - 1

/-- Rotate a 64-bit lane left by `n < 64` bits. -/
def rotl64 (x n : Nat) : Nat :=
  ((x <<< n) % 2 ^ 64) ||| (x >>> (64 - n))

/-- The 24 keccak-f[1600] round constants. -/
def keccakRC : List Nat :=
  [0x0000000000000001, 0x0000000000008082, 0x800000000000808a,
   0x8000000080008000, 0x000000000000808b, 0x0000000080000001,
   0x8000000080008081, 0x8000000000008009, 0x000000000000008a,
   0x0000000000000088, 0x0000000080008009, 0x000000008000000a,
   0x000000008000808b, 0x800000000000008b, 0x8000000000008089,
   0x8000000000008003, 0x8000000000008002, 0x8000000000000080,
   0x000000000000800a, 0x800000008000000a, 0x8000000080008081,
   0x8000000000008080, 0x0000000080000001, 0x8000000080008008]

/-- The rho rotation offset for lane `(x, y)`. -/
def rhoOffset (x y : Nat) : Nat :=
  [[0, 36, 3, 41, 18],
   [1, 44, 10, 45, 2],
   [62, 6, 43, 15, 61],
   [28, 55, 25, 21, 56],
   [27, 20, 39, 8, 14]].getD (x % 5) [] |>.getD (y % 5) 0

/-- The 5×5 lane state, flattened as lane `(x, y) ↦ x + 5 * y`. -/
def kGet (st : List Nat) (x y : Nat) : Nat := st.getD (x % 5 + 5 * (y % 5)) 0

/-- The θ step of keccak-f. -/
def keccakTheta (st : List Nat) : List Nat :=
  let c := fun x =>
    kGet st x 0 ^^^ kGet st x 1 ^^^ kGet st x 2 ^^^ kGet st x 3 ^^^ kGet st x 4
  let d := fun x => c ((x + 4) % 5) ^^^ rotl64 (c ((x + 1) % 5)) 1
  (List.ofFn fun i : Fin 25 => st.getD i 0 ^^^ d (i % 5))

/-- The combined ρ and π steps: lane `(x, y)` of the result is lane
`(x + 3y, x)` of the input rotated by its rho offset. -/
def keccakRhoPi (st : List Nat) : List Nat :=
  List.ofFn fun i : Fin 25 =>
    let x := i % 5
    let y := i / 5
    let sx := (x + 3 * y) % 5
    rotl64 (kGet st sx x) (rhoOffset sx x)

/-- The χ step. -/
def keccakChi (st : List Nat) : List Nat :=
  List.ofFn fun i : Fin 25 =>
    let x := i % 5
    let y := i / 5
    kGet st x y ^^^ ((kGet st (x + 1) y ^^^ lane64Mask) &&& kGet st (x + 2) y)

/-- One keccak-f round: θ, ρπ, χ, then ι with round constant `rc`. -/
def keccakRound (st : List Nat) (rc : Nat) : List Nat :=
  match keccakChi (keccakRhoPi (keccakTheta st)) with
  | [] => []
  | a :: rest => (a ^^^ rc) :: rest

/-- keccak-f[1600]: 24 rounds. -/
def keccakF (st : List Nat) : List Nat := keccakRC.foldl keccakRound st

/-- The `Nat` denoted by little-endian bytes. -/
def leToNat (bs : List Nat) : Nat :=
  bs.foldr (fun b acc => acc * 256 + b) 0

/-- Little-endian bytes of `n`, exactly `w` bytes. -/
def natToLE : Nat → Nat → List Nat
  | 0, _ => []
  | w + 1, n => n % 256 :: natToLE w (n / 256)

/-- Keccak legacy padding to the 136-byte rate: delimiter `0x01`, zeros,
final bit `0x80` (merged into `0x81` when only one byte remains). -/
def keccakPad (msg : List Nat) : List Nat :=
  let r := 136 - msg.length % 136
  if r = 1 then msg ++ [0x81]
  else msg ++ 0x01 :: List.replicate (r - 2) 0 ++ [0x80]

/-- Split into 136-byte rate blocks. -/
def keccakBlocks (bs : List Nat) : List (List Nat) :=
  if bs = [] then []
  else bs.take 136 :: keccakBlocks (bs.drop 136)
termination_by bs.length
decreasing_by
  rename_i h
  have hlen : 0 < bs.length := List.length_pos.mpr h
  simp only [List.length_drop]
  omega

/-- Absorb one 136-byte block: XOR its 17 little-endian lanes into the
state and permute. -/
def keccakAbsorb (st : List Nat) (block : List Nat) : List Nat :=
  keccakF (List.ofFn fun i : Fin 25 =>
    if i < 17 then st.getD i 0 ^^^ leToNat (slice32 block (8 * i) 8)
    else st.getD i 0)

/-- Keccak-256 of a byte sequence: absorb the padded message into the
all-zero state, then squeeze the first 32 bytes (four lanes). -/
def keccak256 (msg : List Nat) : List Nat :=
  let final := (keccakBlocks (keccakPad msg)).foldl keccakAbsorb (List.replicate 25 0)
  (List.ofFn fun i : Fin 4 => natToLE 8 (final.getD i 0)).flatten

/-! ## Contract descriptors (`Contract` in `lib.rs`, over `ethabi`) -/

/-- The canonical type name written into a function signature
(`ethabi` `param_type/writer.rs`). -/
def ParamType.typeName : ParamType → String
  | .address => "address"
  | .uint n => "uint" ++ toString n
  | .bool => "bool"
  | .fixedBytes n => "bytes" ++ toString n
  | .bytes => "bytes"

/-- An `ethabi::Function`: a name plus input and output parameter types
(parameter names play no role in encoding). -/
structure EthFunction where
  name : String
  inputs : List ParamType
  outputs : List ParamType
deriving DecidableEq, Repr

/-- `ethabi::short_signature`: the first four bytes of the keccak-256
hash of `"name(ty1,ty2,...)"`. -/
def shortSignature (name : String) (params : List ParamType) : List Nat :=
  (keccak256 (String.toList
      (name ++ "(" ++ String.intercalate "," (params.map ParamType.typeName) ++ ")")
    |>.map Char.toNat)).take 4

/-- `Function::encode_input`: type-check the tokens against the input
parameters, then the four selector bytes followed by the encoded
arguments; `InvalidData` on a failed check. -/
def EthFunction.encode_input (f : EthFunction) (tokens : List Token) :
    Except AbiError (List Nat) :=
  if Token.types_check tokens f.inputs then
    .ok (shortSignature f.name f.inputs ++ abi_encode tokens)
  else .error .invalidData

/-- `Function::decode_output`: decode against the output parameters. -/
def EthFunction.decode_output (f : EthFunction) (data : List Nat) :
    Except AbiError (List Token) :=
  abi_decode f.outputs data

/-- A parsed `ethabi::Contract`: its functions, in declaration order. -/
structure EthContract where
  functions : List EthFunction
deriving DecidableEq, Repr

/-- `Contract::function(name)`: the first function of that name, or
`InvalidName`. -/
def EthContract.function (c : EthContract) (name : String) :
    Except AbiError EthFunction :=
  match c.functions.find? fun f => f.name == name with
  | some f => .ok f
  | none => .error (.invalidName name)

/-- The repository's `Contract` (`lib.rs` lines 171–174): an address and
a parsed interface description. -/
structure Contract where
  address : H160
  abi : EthContract
deriving DecidableEq, Repr

/-- `Contract::encode` (`lib.rs` lines 183–189):
`self.abi.function(method).unwrap().encode_input(tokens).unwrap()` —
both `ethabi` errors are unwrapped, so an unknown method or a failed
type check panics (modelled as `none`); no error value is returned. -/
def Contract.encode (c : Contract) (method : String) (tokens : List Token) :
    Option (List Nat) :=
  match c.abi.function method with
  | .error _ => none
  | .ok f =>
    match f.encode_input tokens with
    | .error _ => none
    | .ok bs => some bs

/-- `Contract::decode` (`lib.rs` lines 191–198):
`self.abi.function(method).unwrap().decode_output(bytes).unwrap()` —
an unknown method or a decoding failure panics (modelled as `none`). -/
def Contract.decode (c : Contract) (method : String) (bytes : List Nat) :
    Option (List Token) :=
  match c.abi.function method with
  | .error _ => none
  | .ok f =>
    match f.decode_output bytes with
    | .error _ => none
    | .ok ts => some ts

/-! ## Canonical values

The round-trip property holds for well-formed typed values: tokens whose
shapes exactly match their (solidity-legal) parameter types — addresses
of 20 bytes, uints below `2^256` (the `U256` range), fixed bytes of
exactly the declared size `1..=32`. -/

/-- A token is the canonical inhabitant shape of a parameter type. -/
def canonMatch : Token → ParamType → Bool
  | .address a, .address => a.length = 20
  | .uint n, .uint _ => n < 2 ^ 256
  | .bool _, .bool => true
  | .fixedBytes bs, .fixedBytes s => bs.length = s && 1 ≤ s && s ≤ 32
  | .bytes _, .bytes => true
  | _, _ => false

/-- Pointwise canonical match of a token list against a type list. -/
def canonList : List Token → List ParamType → Bool
  | [], [] => true
  | t :: ts, ty :: tys => canonMatch t ty && canonList ts tys
  | _, _ => false

/-! ## Auxiliary predicates and concrete demonstration values -/

/-- A channel that can never produce a message again: closed with an
empty buffer (exactly the condition under which `try_recv` reports
`Closed`). -/
def Channel.dead {α : Type} (ch : Channel α) : Prop :=
  ch.queue = [] ∧ ch.closed = true

/-- Every buffered account-channel message carries a non-empty account
list (the producer invariant established by `connect`). -/
def accountQueueWF (w : EthWallet) : Prop :=
  ∀ p ∈ w.account_ch.queue, (p : List H160 × Nat).1 ≠ []

/-- A demonstration 20-byte address. -/
def aDemo : H160 := List.replicate 19 0 ++ [0xaa]

/-- A demonstration 65-byte signature. -/
def sigDemo : H520 := List.replicate 65 1

/-- A session holding one buffered account result. -/
def wAccountDemo : EthWallet :=
  { init_eth_wallet with account_ch := ⟨[([aDemo], 1)], false⟩ }

/-- A session whose signature channel was closed with one message still
buffered (reachable: a sign task delivered, then the sender side was
torn down). -/
def sigClosedDemo : EthWallet :=
  { init_eth_wallet with signature_ch := ⟨[sigDemo], true⟩ }

/-- A session whose signature channel has already reported `Closed`. -/
def sigDeadDemo : EthWallet :=
  { init_eth_wallet with signature_ch := ⟨[], true⟩ }

/-- The initial session after one signature delivery. -/
def initSignSend : EthWallet :=
  { init_eth_wallet with
    signature_ch := init_eth_wallet.signature_ch.send sigDemo }

/-- A demonstration function: no inputs, a five-typed return tuple. -/
def fDemo : EthFunction :=
  ⟨"getData", [], [.uint 256, .address, .bool, .fixedBytes 4, .bytes]⟩

/-- A demonstration contract descriptor holding `fDemo`. -/
def demoContract : Contract := ⟨aDemo, ⟨[fDemo]⟩⟩

/-- A demonstration return value for `fDemo`. -/
def tsDemo : List Token :=
  [.uint 7, .address aDemo, .bool true, .fixedBytes [1, 2, 3, 4],
   .bytes [9, 8, 7]]

/-! # Theorems -/

/-! ## Shared lemmas about the channels and the session -/

theorem tryRecv_eq_error_iff {α : Type} (ch : Channel α) (e : TryRecvError) :
    ch.tryRecv = .error e ↔
      ch.queue = [] ∧ (if ch.closed then TryRecvError.closed else .empty) = e := by
  unfold Channel.tryRecv
  cases ch.queue <;> simp

theorem tryRecv_cons {α : Type} (ch : Channel α) (x : α) (rest : List α)
    (h : ch.queue = x :: rest) :
    ch.tryRecv = .ok (x, { ch with queue := rest }) := by
  unfold Channel.tryRecv
  rw [h]

theorem connect_task_nonempty {pok : Bool} {ar : Option (List H160)}
    {cr : Option Nat} {v : List H160 × Nat}
    (h : connect_task pok ar cr = some v) : v.1 ≠ [] := by
  unfold connect_task at h
  cases pok with
  | false => simp at h
  | true =>
    cases ar with
    | none => simp at h
    | some addrs =>
      cases cr with
      | none => simp at h
      | some chain =>
        by_cases he : addrs.isEmpty
        · simp [he] at h
        · simp [he] at h
          obtain ⟨-, hv⟩ := h
          rw [← hv]
          simpa [List.isEmpty_iff] using he

theorem send_of_closed {α : Type} (ch : Channel α) (x : α)
    (h : ch.closed = true) : ch.send x = ch := by
  unfold Channel.send
  rw [h]
  simp

theorem recv_account_empty (w : EthWallet) (h : w.account_ch.queue = []) :
    w.recv_account =
      (.err (if w.account_ch.closed then RecvError.closed else .empty), w) := by
  unfold EthWallet.recv_account Channel.tryRecv
  rw [h]
  cases hc : w.account_ch.closed <;> simp [RecvError.ofTryRecvError]

theorem recv_signature_empty (w : EthWallet) (h : w.signature_ch.queue = []) :
    w.recv_signature =
      (.err (if w.signature_ch.closed then RecvError.closed else .empty), w) := by
  unfold EthWallet.recv_signature Channel.tryRecv
  rw [h]
  cases hc : w.signature_ch.closed <;> simp [RecvError.ofTryRecvError]

theorem recv_transaction_empty (w : EthWallet)
    (h : w.transaction_ch.queue = []) :
    w.recv_transaction =
      (.err (if w.transaction_ch.closed then RecvError.closed else .empty), w) := by
  unfold EthWallet.recv_transaction Channel.tryRecv
  rw [h]
  cases hc : w.transaction_ch.closed <;> simp [RecvError.ofTryRecvError]

theorem recv_call_empty (w : EthWallet) (h : w.call_ch.queue = []) :
    w.recv_call =
      (.err (if w.call_ch.closed then RecvError.closed else .empty), w) := by
  unfold EthWallet.recv_call Channel.tryRecv
  rw [h]
  cases hc : w.call_ch.closed <;> simp [RecvError.ofTryRecvError]

theorem recv_signature_cons (w : EthWallet) (s : H520) (rest : List H520)
    (h : w.signature_ch.queue = s :: rest) :
    w.recv_signature =
      (.ok s, { w with signature_ch := { w.signature_ch with queue := rest } }) := by
  unfold EthWallet.recv_signature
  rw [tryRecv_cons w.signature_ch _ _ h]

theorem recv_transaction_cons (w : EthWallet) (s : H256) (rest : List H256)
    (h : w.transaction_ch.queue = s :: rest) :
    w.recv_transaction =
      (.ok s, { w with transaction_ch := { w.transaction_ch with queue := rest } }) := by
  unfold EthWallet.recv_transaction
  rw [tryRecv_cons w.transaction_ch _ _ h]

theorem recv_call_cons (w : EthWallet) (s : List Nat) (rest : List (List Nat))
    (h : w.call_ch.queue = s :: rest) :
    w.recv_call =
      (.ok s, { w with call_ch := { w.call_ch with queue := rest } }) := by
  unfold EthWallet.recv_call
  rw [tryRecv_cons w.call_ch _ _ h]

theorem recv_account_cons (w : EthWallet) (a : H160) (as : List H160)
    (chain : Nat) (rest : List (List H160 × Nat))
    (h : w.account_ch.queue = (a :: as, chain) :: rest) :
    w.recv_account =
      (.ok (peerIdToHex a, chain),
       { w with accounts := a :: as, chain_id := chain,
                account_ch := { w.account_ch with queue := rest } }) := by
  unfold EthWallet.recv_account
  rw [tryRecv_cons w.account_ch _ _ h]

theorem recv_account_fields (w : EthWallet) :
    (w.recv_account.2).signature_ch = w.signature_ch ∧
    (w.recv_account.2).transaction_ch = w.transaction_ch ∧
    (w.recv_account.2).call_ch = w.call_ch ∧
    (w.recv_account.2).account_ch.closed = w.account_ch.closed := by
  unfold EthWallet.recv_account Channel.tryRecv
  rcases hq : w.account_ch.queue with _ | ⟨⟨addrs, chain⟩, rest⟩
  · simp [hq]
  · cases addrs <;> simp [hq]

theorem recv_signature_fields (w : EthWallet) :
    (w.recv_signature.2).accounts = w.accounts ∧
    (w.recv_signature.2).chain_id = w.chain_id ∧
    (w.recv_signature.2).account_ch = w.account_ch ∧
    (w.recv_signature.2).transaction_ch = w.transaction_ch ∧
    (w.recv_signature.2).call_ch = w.call_ch ∧
    (w.recv_signature.2).signature_ch.closed = w.signature_ch.closed := by
  unfold EthWallet.recv_signature Channel.tryRecv
  rcases hq : w.signature_ch.queue with _ | ⟨s, rest⟩ <;> simp [hq]

theorem recv_transaction_fields (w : EthWallet) :
    (w.recv_transaction.2).accounts = w.accounts ∧
    (w.recv_transaction.2).chain_id = w.chain_id ∧
    (w.recv_transaction.2).account_ch = w.account_ch ∧
    (w.recv_transaction.2).signature_ch = w.signature_ch ∧
    (w.recv_transaction.2).call_ch = w.call_ch ∧
    (w.recv_transaction.2).transaction_ch.closed = w.transaction_ch.closed := by
  unfold EthWallet.recv_transaction Channel.tryRecv
  rcases hq : w.transaction_ch.queue with _ | ⟨s, rest⟩ <;> simp [hq]

theorem recv_call_fields (w : EthWallet) :
    (w.recv_call.2).accounts = w.accounts ∧
    (w.recv_call.2).chain_id = w.chain_id ∧
    (w.recv_call.2).account_ch = w.account_ch ∧
    (w.recv_call.2).signature_ch = w.signature_ch ∧
    (w.recv_call.2).transaction_ch = w.transaction_ch ∧
    (w.recv_call.2).call_ch.closed = w.call_ch.closed := by
  unfold EthWallet.recv_call Channel.tryRecv
  rcases hq : w.call_ch.queue with _ | ⟨s, rest⟩ <;> simp [hq]

theorem recv_account_queue_sub (w : EthWallet) (p : List H160 × Nat)
    (hp : p ∈ (w.recv_account.2).account_ch.queue) :
    p ∈ w.account_ch.queue := by
  revert hp
  unfold EthWallet.recv_account Channel.tryRecv
  rcases hq : w.account_ch.queue with _ | ⟨⟨addrs, chain⟩, rest⟩
  · simp [hq]
  · cases addrs <;> simp [hq] <;> intro h <;> simp [h]

theorem step_accountQueueWF {w w' : EthWallet} (hs : Step w w')
    (hw : accountQueueWF w) : accountQueueWF w' := by
  cases hs with
  | connect_send pok ar cr v hv =>
    intro p hp
    simp only [Channel.send] at hp
    by_cases hc : w.account_ch.closed
    · simp [hc] at hp
      exact hw p hp
    · simp [hc] at hp
      rcases hp with hp | hp
      · exact hw p hp
      · rw [hp]; exact connect_task_nonempty hv
  | poll_account =>
    intro p hp
    exact hw p (recv_account_queue_sub w p hp)
  | poll_signature =>
    intro p hp
    rw [(recv_signature_fields w).2.2.1] at hp
    exact hw p hp
  | poll_transaction =>
    intro p hp
    rw [(recv_transaction_fields w).2.2.1] at hp
    exact hw p hp
  | poll_call =>
    intro p hp
    rw [(recv_call_fields w).2.2.1] at hp
    exact hw p hp
  | close_account =>
    intro p hp
    exact hw p hp
  | _ =>
    intro p hp
    exact hw p hp

theorem reachable_accountQueueWF {w : EthWallet} (hw : Reachable w) :
    accountQueueWF w := by
  induction hw with
  | refl => intro p hp; cases hp
  | tail _ hs ih => exact step_accountQueueWF hs ih

theorem step_preserves_dead {w w' : EthWallet} (hs : Step w w') :
    (w.account_ch.dead → w'.account_ch.dead) ∧
    (w.signature_ch.dead → w'.signature_ch.dead) ∧
    (w.transaction_ch.dead → w'.transaction_ch.dead) ∧
    (w.call_ch.dead → w'.call_ch.dead) := by
  cases hs with
  | connect_send pok ar cr v hv =>
    refine ⟨?_, id, id, id⟩
    intro hd
    show (w.account_ch.send v).dead
    rw [send_of_closed _ _ hd.2]
    exact hd
  | sign_send sig =>
    refine ⟨id, ?_, id, id⟩
    intro hd
    show (w.signature_ch.send sig).dead
    rw [send_of_closed _ _ hd.2]
    exact hd
  | transaction_send h =>
    refine ⟨id, id, ?_, id⟩
    intro hd
    show (w.transaction_ch.send h).dead
    rw [send_of_closed _ _ hd.2]
    exact hd
  | call_send bs =>
    refine ⟨id, id, id, ?_⟩
    intro hd
    show (w.call_ch.send bs).dead
    rw [send_of_closed _ _ hd.2]
    exact hd
  | poll_account =>
    refine ⟨?_, ?_, ?_, ?_⟩ <;> intro hd
    · rw [congrArg Prod.snd (recv_account_empty w hd.1)]; exact hd
    · rw [(recv_account_fields w).1]; exact hd
    · rw [(recv_account_fields w).2.1]; exact hd
    · rw [(recv_account_fields w).2.2.1]; exact hd
  | poll_signature =>
    refine ⟨?_, ?_, ?_, ?_⟩ <;> intro hd
    · rw [(recv_signature_fields w).2.2.1]; exact hd
    · rw [congrArg Prod.snd (recv_signature_empty w hd.1)]; exact hd
    · rw [(recv_signature_fields w).2.2.2.1]; exact hd
    · rw [(recv_signature_fields w).2.2.2.2.1]; exact hd
  | poll_transaction =>
    refine ⟨?_, ?_, ?_, ?_⟩ <;> intro hd
    · rw [(recv_transaction_fields w).2.2.1]; exact hd
    · rw [(recv_transaction_fields w).2.2.2.1]; exact hd
    · rw [congrArg Prod.snd (recv_transaction_empty w hd.1)]; exact hd
    · rw [(recv_transaction_fields w).2.2.2.2.1]; exact hd
  | poll_call =>
    refine ⟨?_, ?_, ?_, ?_⟩ <;> intro hd
    · rw [(recv_call_fields w).2.2.1]; exact hd
    · rw [(recv_call_fields w).2.2.2.1]; exact hd
    · rw [(recv_call_fields w).2.2.2.2.1]; exact hd
    · rw [congrArg Prod.snd (recv_call_empty w hd.1)]; exact hd
  | close_account =>
    exact ⟨fun hd => ⟨hd.1, rfl⟩, id, id, id⟩
  | close_signature =>
    exact ⟨id, fun hd => ⟨hd.1, rfl⟩, id, id⟩
  | close_transaction =>
    exact ⟨id, id, fun hd => ⟨hd.1, rfl⟩, id⟩
  | close_call =>
    exact ⟨id, id, id, fun hd => ⟨hd.1, rfl⟩⟩

theorem reach_preserves_dead {w w' : EthWallet} (hr : Reach w w') :
    (w.account_ch.dead → w'.account_ch.dead) ∧
    (w.signature_ch.dead → w'.signature_ch.dead) ∧
    (w.transaction_ch.dead → w'.transaction_ch.dead) ∧
    (w.call_ch.dead → w'.call_ch.dead) := by
  induction hr with
  | refl => exact ⟨id, id, id, id⟩
  | tail _ hs ih =>
    have hst := step_preserves_dead hs
    exact ⟨hst.1 ∘ ih.1, hst.2.1 ∘ ih.2.1, hst.2.2.1 ∘ ih.2.2.1,
           hst.2.2.2 ∘ ih.2.2.2⟩

theorem recv_account_closed_iff (w : EthWallet) :
    w.recv_account.1 = .err .closed ↔ w.account_ch.dead := by
  unfold EthWallet.recv_account Channel.tryRecv Channel.dead
  rcases hq : w.account_ch.queue with _ | ⟨⟨addrs, chain⟩, rest⟩
  · cases hc : w.account_ch.closed <;>
      simp [hq, hc, RecvError.ofTryRecvError]
  · cases addrs <;> simp [hq]

theorem recv_signature_closed_iff (w : EthWallet) :
    w.recv_signature.1 = .err .closed ↔ w.signature_ch.dead := by
  unfold EthWallet.recv_signature Channel.tryRecv Channel.dead
  rcases hq : w.signature_ch.queue with _ | ⟨s, rest⟩
  · cases hc : w.signature_ch.closed <;>
      simp [hq, hc, RecvError.ofTryRecvError]
  · simp [hq]

theorem recv_transaction_closed_iff (w : EthWallet) :
    w.recv_transaction.1 = .err .closed ↔ w.transaction_ch.dead := by
  unfold EthWallet.recv_transaction Channel.tryRecv Channel.dead
  rcases hq : w.transaction_ch.queue with _ | ⟨s, rest⟩
  · cases hc : w.transaction_ch.closed <;>
      simp [hq, hc, RecvError.ofTryRecvError]
  · simp [hq]

theorem recv_call_closed_iff (w : EthWallet) :
    w.recv_call.1 = .err .closed ↔ w.call_ch.dead := by
  unfold EthWallet.recv_call Channel.tryRecv Channel.dead
  rcases hq : w.call_ch.queue with _ | ⟨s, rest⟩
  · cases hc : w.call_ch.closed <;>
      simp [hq, hc, RecvError.ofTryRecvError]
  · simp [hq]

/-! ## C10 — the freshly initialized session -/

/-- C10: immediately after session initialization the account list is
empty, the chain id is `0`, all four channels are open and hold no
messages, and each of the four pollers returns `Empty` (leaving the
session unchanged). -/
theorem C10_initial_session_state :
    init_eth_wallet.accounts = [] ∧
    init_eth_wallet.chain_id = 0 ∧
    init_eth_wallet.account_ch = ⟨[], false⟩ ∧
    init_eth_wallet.signature_ch = ⟨[], false⟩ ∧
    init_eth_wallet.transaction_ch = ⟨[], false⟩ ∧
    init_eth_wallet.call_ch = ⟨[], false⟩ ∧
    init_eth_wallet.recv_account = (.err .empty, init_eth_wallet) ∧
    init_eth_wallet.recv_signature = (.err .empty, init_eth_wallet) ∧
    init_eth_wallet.recv_transaction = (.err .empty, init_eth_wallet) ∧
    init_eth_wallet.recv_call = (.err .empty, init_eth_wallet) := by
  refine ⟨rfl, rfl, rfl, rfl, rfl, rfl, ?_, rfl, rfl, rfl⟩
  rfl

/-! ## C1 — `recv_account` updates accounts and chain id atomically -/

/-- C1: on a successful poll, `recv_account` stores exactly the
delivered account list and chain id (dequeuing that one message and
touching nothing else) and returns the first delivered account, hex
rendered, with that same chain id; on an `Empty` or `Closed` outcome the
session — in particular both fields — is unchanged. -/
theorem C1_recv_account_atomic (w : EthWallet) :
    (∀ a as chain rest,
      w.account_ch.queue = (a :: as, chain) :: rest →
      w.recv_account =
        (.ok (peerIdToHex a, chain),
         { w with accounts := a :: as, chain_id := chain,
                  account_ch := { w.account_ch with queue := rest } })) ∧
    (∀ e, w.recv_account.1 = .err e → w.recv_account.2 = w) := by
  constructor
  · intro a as chain rest hq
    unfold EthWallet.recv_account
    rw [tryRecv_cons w.account_ch _ _ hq]
  · intro e
    unfold EthWallet.recv_account
    rcases hq : w.account_ch.tryRecv with he | ⟨⟨addrs, chain⟩, ch'⟩
    · simp [hq]
    · simp only [hq]
      cases addrs <;> simp

/-- Witness for C1 at a concrete session: one buffered result
`([0x…aa], 1)` is consumed, stored, and returned. -/
theorem C1_recv_account_atomic_witness :
    wAccountDemo.recv_account =
      (.ok (peerIdToHex aDemo, 1),
       { wAccountDemo with accounts := [aDemo], chain_id := 1,
                           account_ch := ⟨[], false⟩ }) :=
  (C1_recv_account_atomic wAccountDemo).1 aDemo [] 1 [] rfl

/-! ## C6 — the three value pollers mutate nothing else -/

/-- C6: `recv_signature`, `recv_transaction` and `recv_call` leave the
account list, the chain id and every channel other than their own
untouched (their own channel merely loses the dequeued message), and no
session event other than a `recv_account` poll ever changes the
account/chain-id fields. -/
theorem C6_poller_frame (w : EthWallet) :
    ((w.recv_signature.2).accounts = w.accounts ∧
     (w.recv_signature.2).chain_id = w.chain_id ∧
     (w.recv_signature.2).account_ch = w.account_ch ∧
     (w.recv_signature.2).transaction_ch = w.transaction_ch ∧
     (w.recv_signature.2).call_ch = w.call_ch) ∧
    ((w.recv_transaction.2).accounts = w.accounts ∧
     (w.recv_transaction.2).chain_id = w.chain_id ∧
     (w.recv_transaction.2).account_ch = w.account_ch ∧
     (w.recv_transaction.2).signature_ch = w.signature_ch ∧
     (w.recv_transaction.2).call_ch = w.call_ch) ∧
    ((w.recv_call.2).accounts = w.accounts ∧
     (w.recv_call.2).chain_id = w.chain_id ∧
     (w.recv_call.2).account_ch = w.account_ch ∧
     (w.recv_call.2).signature_ch = w.signature_ch ∧
     (w.recv_call.2).transaction_ch = w.transaction_ch) ∧
    (∀ w', Step w w' →
      (w'.accounts = w.accounts ∧ w'.chain_id = w.chain_id) ∨
      w' = w.recv_account.2) := by
  refine ⟨?_, ?_, ?_, ?_⟩
  · unfold EthWallet.recv_signature
    rcases hq : w.signature_ch.tryRecv with he | ⟨sig, ch'⟩ <;> simp [hq]
  · unfold EthWallet.recv_transaction
    rcases hq : w.transaction_ch.tryRecv with he | ⟨h, ch'⟩ <;> simp [hq]
  · unfold EthWallet.recv_call
    rcases hq : w.call_ch.tryRecv with he | ⟨bs, ch'⟩ <;> simp [hq]
  · intro w' hs
    cases hs with
    | poll_account => exact Or.inr rfl
    | poll_signature =>
      left
      unfold EthWallet.recv_signature
      rcases hq : w.signature_ch.tryRecv with he | ⟨sig, ch'⟩ <;> simp [hq]
    | poll_transaction =>
      left
      unfold EthWallet.recv_transaction
      rcases hq : w.transaction_ch.tryRecv with he | ⟨h, ch'⟩ <;> simp [hq]
    | poll_call =>
      left
      unfold EthWallet.recv_call
      rcases hq : w.call_ch.tryRecv with he | ⟨bs, ch'⟩ <;> simp [hq]
    | _ => left; exact ⟨rfl, rfl⟩

/-- Witness for C6: a signature delivery into the fresh session leaves
the account list and chain id untouched. -/
theorem C6_poller_frame_witness :
    (initSignSend.accounts = init_eth_wallet.accounts ∧
     initSignSend.chain_id = init_eth_wallet.chain_id) ∨
    initSignSend = init_eth_wallet.recv_account.2 :=
  (C6_poller_frame init_eth_wallet).2.2.2 initSignSend
    (Step.sign_send init_eth_wallet sigDemo)

/-! ## C5 — `sign`'s address-parse precondition -/

/-- C5: `sign` succeeds (spawns its task, reporting no error value —
none exists in its return type) exactly when the account string parses
as an address; on any non-parsing input it panics (terminates
abnormally, `none`) instead of reporting an error, and under the
precondition the parse step never fails: the spawned task carries the
parsed address. -/
theorem C5_sign_parse_precondition (w : EthWallet) (account msg : String) :
    ((w.sign account msg).isSome ↔ (parseH160 account).isSome) ∧
    (∀ a, parseH160 account = some a →
      w.sign account msg = some ⟨a, msg⟩) := by
  constructor
  · unfold EthWallet.sign
    rcases h : parseH160 account with _ | a <;> simp
  · intro a ha
    unfold EthWallet.sign
    rw [ha]

/-- Witness for C5 at a concrete valid address string. -/
theorem C5_sign_parse_precondition_witness :
    init_eth_wallet.sign "0x00000000000000000000000000000000000000aa" "hello" =
      some ⟨aDemo, "hello"⟩ :=
  (C5_sign_parse_precondition init_eth_wallet
      "0x00000000000000000000000000000000000000aa" "hello").2 aDemo (by decide)

/-! ## C3 — the `connect` task's sending discipline -/

/-- C3: the task spawned by `connect` sends at most one message; any
message it sends carries a non-empty account list; and when the
provider cannot be acquired or either provider call fails, nothing at
all is enqueued (the channel's payload type carries no error variant,
so no error can be enqueued either). -/
theorem C3_connect_task_discipline (pok : Bool) (ar : Option (List H160))
    (cr : Option Nat) :
    (∀ addrs chain,
      connect_task pok ar cr = some (addrs, chain) → addrs ≠ []) ∧
    (connect_task pok ar cr).toList.length ≤ 1 ∧
    (pok = false → connect_task pok ar cr = none) ∧
    (ar = none → connect_task pok ar cr = none) ∧
    (cr = none → connect_task pok ar cr = none) := by
    refine ⟨?_, ?_, ?_, ?_, ?_⟩
    · intro addrs chain h
      exact connect_task_nonempty h
    · rcases connect_task pok ar cr with _ | v <;> simp
    · intro h; subst h; rfl
    · intro h; subst h
      cases pok <;> rfl
    · intro h; subst h
      cases pok with
      | false => rfl
      | true => cases ar <;> rfl

/-- Witness for C3: a successful environment delivers the (non-empty)
account list with the chain id, exactly once. -/
theorem C3_connect_task_discipline_witness :
    [aDemo] ≠ ([] : List H160) ∧
    (connect_task true (some [aDemo]) (some 1)).toList.length ≤ 1 :=
  ⟨(C3_connect_task_discipline true (some [aDemo]) (some 1)).1 [aDemo] 1 rfl,
   (C3_connect_task_discipline true (some [aDemo]) (some 1)).2.1⟩

/-! ## C2 — the three-outcome taxonomy of the pollers -/

/-- C2: in every session state (reachable from initialization), each
poller is a total function returning exactly one of three outcomes,
decided by its channel: the oldest buffered message when one is queued
(for `recv_account`, the first account of the delivered — necessarily
non-empty — list with its chain id), `Empty` when the open channel
holds nothing, and `Closed` when the channel is closed and drained, so
it can never produce a message again. -/
theorem C2_poll_taxonomy (w : EthWallet) (hw : Reachable w) :
    (∀ addrs chain rest, w.account_ch.queue = (addrs, chain) :: rest →
      ∃ a as, addrs = a :: as ∧
        w.recv_account.1 = .ok (peerIdToHex a, chain)) ∧
    (w.account_ch.queue = [] → w.account_ch.closed = false →
      w.recv_account.1 = .err .empty) ∧
    (w.account_ch.queue = [] → w.account_ch.closed = true →
      w.recv_account.1 = .err .closed) ∧
    (∀ s rest, w.signature_ch.queue = s :: rest →
      w.recv_signature.1 = .ok s) ∧
    (w.signature_ch.queue = [] → w.signature_ch.closed = false →
      w.recv_signature.1 = .err .empty) ∧
    (w.signature_ch.queue = [] → w.signature_ch.closed = true →
      w.recv_signature.1 = .err .closed) ∧
    (∀ s rest, w.transaction_ch.queue = s :: rest →
      w.recv_transaction.1 = .ok s) ∧
    (w.transaction_ch.queue = [] → w.transaction_ch.closed = false →
      w.recv_transaction.1 = .err .empty) ∧
    (w.transaction_ch.queue = [] → w.transaction_ch.closed = true →
      w.recv_transaction.1 = .err .closed) ∧
    (∀ s rest, w.call_ch.queue = s :: rest →
      w.recv_call.1 = .ok s) ∧
    (w.call_ch.queue = [] → w.call_ch.closed = false →
      w.recv_call.1 = .err .empty) ∧
    (w.call_ch.queue = [] → w.call_ch.closed = true →
      w.recv_call.1 = .err .closed) := by
  refine ⟨?_, ?_, ?_, ?_, ?_, ?_, ?_, ?_, ?_, ?_, ?_, ?_⟩
  · intro addrs chain rest hq
    have hwf := reachable_accountQueueWF hw (addrs, chain) (by rw [hq]; simp)
    rcases addrs with _ | ⟨a, as⟩
    · exact absurd rfl hwf
    · refine ⟨a, as, rfl, ?_⟩
      rw [congrArg Prod.fst ((recv_account_cons w) a as chain rest hq)]
  · intro hq hc
    rw [congrArg Prod.fst (recv_account_empty w hq), hc]
    rfl
  · intro hq hc
    rw [congrArg Prod.fst (recv_account_empty w hq), hc]
    rfl
  · intro s rest hq
    rw [congrArg Prod.fst (recv_signature_cons w s rest hq)]
  · intro hq hc
    rw [congrArg Prod.fst (recv_signature_empty w hq), hc]
    rfl
  · intro hq hc
    rw [congrArg Prod.fst (recv_signature_empty w hq), hc]
    rfl
  · intro s rest hq
    rw [congrArg Prod.fst (recv_transaction_cons w s rest hq)]
  · intro hq hc
    rw [congrArg Prod.fst (recv_transaction_empty w hq), hc]
    rfl
  · intro hq hc
    rw [congrArg Prod.fst (recv_transaction_empty w hq), hc]
    rfl
  · intro s rest hq
    rw [congrArg Prod.fst (recv_call_cons w s rest hq)]
  · intro hq hc
    rw [congrArg Prod.fst (recv_call_empty w hq), hc]
    rfl
  · intro hq hc
    rw [congrArg Prod.fst (recv_call_empty w hq), hc]
    rfl

/-- Witness for C2 at the initial session: every poller reports
`Empty`. -/
theorem C2_poll_taxonomy_witness :
    init_eth_wallet.recv_account.1 = .err .empty ∧
    init_eth_wallet.recv_signature.1 = .err .empty ∧
    init_eth_wallet.recv_transaction.1 = .err .empty ∧
    init_eth_wallet.recv_call.1 = .err .empty :=
  ⟨(C2_poll_taxonomy init_eth_wallet Relation.ReflTransGen.refl).2.1 rfl rfl,
   (C2_poll_taxonomy init_eth_wallet Relation.ReflTransGen.refl).2.2.2.2.1 rfl rfl,
   (C2_poll_taxonomy init_eth_wallet Relation.ReflTransGen.refl).2.2.2.2.2.2.2.1 rfl rfl,
   (C2_poll_taxonomy init_eth_wallet Relation.ReflTransGen.refl).2.2.2.2.2.2.2.2.2.2.1 rfl rfl⟩

/-! ## C9 — delivered account lists are never empty -/

/-- C9: in every reachable session state, every value buffered on the
account channel carries a non-empty account list (`connect`'s task, the
channel's only producer, sends only after checking non-emptiness), so
`recv_account`'s access of the first element is in bounds: the poller
never panics. -/
theorem C9_first_account_in_bounds (w : EthWallet) (hw : Reachable w) :
    (∀ p ∈ w.account_ch.queue, (p : List H160 × Nat).1 ≠ []) ∧
    w.recv_account.1 ≠ .panic := by
  have hwf := reachable_accountQueueWF hw
  refine ⟨hwf, ?_⟩
  rcases hq : w.account_ch.queue with _ | ⟨⟨addrs, chain⟩, rest⟩
  · rw [congrArg Prod.fst (recv_account_empty w hq)]
    cases w.account_ch.closed <;> simp
  · have hne := hwf (addrs, chain) (by rw [hq]; simp)
    rcases addrs with _ | ⟨a, as⟩
    · exact absurd rfl hne
    · rw [congrArg Prod.fst (recv_account_cons w a as chain rest hq)]
      simp

/-- Witness for C9 at the initial session. -/
theorem C9_first_account_in_bounds_witness :
    (∀ p ∈ init_eth_wallet.account_ch.queue,
      (p : List H160 × Nat).1 ≠ []) ∧
    init_eth_wallet.recv_account.1 ≠ .panic :=
  C9_first_account_in_bounds init_eth_wallet Relation.ReflTransGen.refl

/-! ## C4 — what "closed" makes the pollers do -/

/-- C4 counterexample: the claim "once a channel is closed, every
subsequent poll on it returns `Closed` — never a successful value" is
false.  In the reachable session below, a signature was delivered and
the channel's sender side was then torn down: the channel is closed,
yet the next poll returns the buffered signature (`Ok`), because a
closed channel still delivers its buffered messages before reporting
`Closed`. -/
theorem C4_counterexample :
    Reachable sigClosedDemo ∧
    sigClosedDemo.signature_ch.closed = true ∧
    sigClosedDemo.recv_signature.1 = .ok sigDemo := by
  refine ⟨?_, rfl, rfl⟩
  have h1 : Step init_eth_wallet initSignSend :=
    Step.sign_send init_eth_wallet sigDemo
  have h2 : Step initSignSend sigClosedDemo :=
    Step.close_signature initSignSend
  exact Relation.ReflTransGen.head h1 (Relation.ReflTransGen.single h2)

/-- C4 amended: once a poll on a channel has returned `Closed` —
equivalently, once the channel is closed *and* its buffer is drained,
so it can never produce a message again — every subsequent poll on that
channel returns `Closed`, never `Empty` and never a successful value:
the `Closed` outcome is terminal and absorbing for each of the four
pollers.  (A channel whose sender side is torn down while messages are
still buffered first delivers those messages, as the counterexample
shows.) -/
theorem C4_closed_outcome_absorbing (w w' : EthWallet) (hr : Reach w w') :
    (w.recv_account.1 = .err .closed → w'.recv_account.1 = .err .closed) ∧
    (w.recv_signature.1 = .err .closed → w'.recv_signature.1 = .err .closed) ∧
    (w.recv_transaction.1 = .err .closed →
      w'.recv_transaction.1 = .err .closed) ∧
    (w.recv_call.1 = .err .closed → w'.recv_call.1 = .err .closed) := by
  have hd := reach_preserves_dead hr
  exact ⟨fun h => (recv_account_closed_iff w').mpr
           (hd.1 ((recv_account_closed_iff w).mp h)),
         fun h => (recv_signature_closed_iff w').mpr
           (hd.2.1 ((recv_signature_closed_iff w).mp h)),
         fun h => (recv_transaction_closed_iff w').mpr
           (hd.2.2.1 ((recv_transaction_closed_iff w).mp h)),
         fun h => (recv_call_closed_iff w').mpr
           (hd.2.2.2 ((recv_call_closed_iff w).mp h))⟩

/-- Witness for the amended C4: a drained closed signature channel still
reports `Closed` after one more poll event on the session. -/
theorem C4_closed_outcome_absorbing_witness :
    (sigDeadDemo.recv_signature.2).recv_signature.1 = .err .closed :=
  (C4_closed_outcome_absorbing sigDeadDemo sigDeadDemo.recv_signature.2
    (Relation.ReflTransGen.single (Step.poll_signature sigDeadDemo))).2.1 rfl

/-! ## Byte-level lemmas for the ABI word format -/

theorem natToBE_length (w n : Nat) : (natToBE w n).length = w := by
  induction w generalizing n with
  | zero => rfl
  | succ w ih => simp [natToBE, ih]

theorem natToBE_foldl (w : Nat) : ∀ n acc, n < 256 ^ w →
    (natToBE w n).foldl (fun acc b => acc * 256 + b) acc =
      acc * 256 ^ w + n := by
  induction w with
  | zero =>
    intro n acc hn
    interval_cases n
    simp [natToBE]
  | succ w ih =>
    intro n acc hn
    have hdiv : n / 256 < 256 ^ w := by
      rw [Nat.div_lt_iff_lt_mul (by norm_num)]
      calc n < 256 ^ (w + 1) := hn
        _ = 256 ^ w * 256 := by ring
    rw [natToBE, List.foldl_append, ih (n / 256) acc hdiv]
    simp only [List.foldl_cons, List.foldl_nil]
    have : n % 256 + 256 * (n / 256) = n := Nat.mod_add_div n 256
    ring_nf
    omega

theorem beToNat_natToBE {w n : Nat} (hn : n < 256 ^ w) :
    beToNat (natToBE w n) = n := by
  unfold beToNat
  rw [natToBE_foldl w n 0 hn]
  ring

theorem natToBE_zero (w : Nat) : natToBE w 0 = List.replicate w 0 := by
  induction w with
  | zero => rfl
  | succ w ih => rw [natToBE, Nat.zero_div, ih, Nat.zero_mod,
      ← List.replicate_succ' w 0]

theorem natToBE_split (a : Nat) : ∀ b n, n < 256 ^ b →
    natToBE (a + b) n = List.replicate a 0 ++ natToBE b n := by
  intro b
  induction b generalizing a with
  | zero =>
    intro n hn
    interval_cases n
    simp [natToBE_zero]
  | succ b ih =>
    intro n hn
    have hdiv : n / 256 < 256 ^ b := by
      rw [Nat.div_lt_iff_lt_mul (by norm_num)]
      calc n < 256 ^ (b + 1) := hn
        _ = 256 ^ b * 256 := by ring
    have : a + (b + 1) = (a + b) + 1 := by ring
    rw [this, natToBE, ih a (n / 256) hdiv, natToBE, List.append_assoc]

theorem allZero_replicate (k : Nat) : allZero (List.replicate k 0) = true := by
  simp [allZero]

theorem asUsize_natToBE {n : Nat} (hn : n < 2 ^ 32) :
    asUsize (natToBE 32 n) = .ok n := by
  have h32 : (32 : Nat) = 28 + 4 := by norm_num
  have hn' : n < 256 ^ 4 := by norm_num at hn ⊢; omega
  rw [h32, natToBE_split 28 4 n hn']
  unfold asUsize
  rw [List.take_left' (by simp), List.drop_left' (by simp),
    allZero_replicate]
  simp [beToNat_natToBE hn']

theorem asBool_encode (b : Bool) :
    asBool (encodeStatic (.bool b)) = .ok b := by
  cases b <;> rfl

theorem roundUp32_ge (n : Nat) : n ≤ roundUp32 n := by
  unfold roundUp32
  omega

theorem roundUp32_of_le_32 {n : Nat} (h1 : 1 ≤ n) (h2 : n ≤ 32) :
    roundUp32 n = 32 := by
  unfold roundUp32
  omega

theorem rightPad32_length (bs : List Nat) :
    (rightPad32 bs).length = roundUp32 bs.length := by
  unfold rightPad32
  have h := roundUp32_ge bs.length
  simp only [List.length_append, List.length_replicate]
  omega

theorem slice32_split (data : List Nat) (off a b : Nat) :
    slice32 data off (a + b) = slice32 data off a ++ slice32 data (off + a) b := by
  unfold slice32
  rw [List.take_add]
  congr 1
  rw [List.drop_drop]

theorem slice32_length (data : List Nat) (off n : Nat)
    (h : off + n ≤ data.length) : (slice32 data off n).length = n := by
  unfold slice32
  rw [List.length_take, List.length_drop]
  omega

theorem slice32_take (data : List Nat) (off : Nat) {a b : Nat} (h : a ≤ b) :
    (slice32 data off b).take a = slice32 data off a := by
  unfold slice32
  rw [List.take_take]
  congr 1
  omega

/-- Split an equation about a combined slice into its two halves. -/
theorem slice32_split_eq {data : List Nat} {off a b : Nat}
    {x y : List Nat} (hx : x.length = a)
    (h : slice32 data off (a + b) = x ++ y)
    (hbound : off + a ≤ data.length) :
    slice32 data off a = x ∧ slice32 data (off + a) b = y := by
  rw [slice32_split] at h
  exact List.append_inj h (by rw [slice32_length data off a hbound, hx])

/-! ## The shape of canonical encodings -/

theorem canon_encodeStatic_length {t : Token} {ty : ParamType}
    (hc : canonMatch t ty = true) (hd : t.isDynamic = false) :
    (encodeStatic t).length = 32 := by
  cases t with
  | address a =>
    cases ty <;> simp [canonMatch] at hc
    simp [encodeStatic, hc]
  | uint n => simp [encodeStatic, natToBE_length]
  | bool b => simp [encodeStatic, natToBE_length]
  | fixedBytes bs =>
    cases ty <;> simp [canonMatch] at hc
    rw [encodeStatic, rightPad32_length]
    unfold roundUp32
    omega
  | bytes bs => simp [Token.isDynamic] at hd

theorem canon_headLen {t : Token} {ty : ParamType}
    (hc : canonMatch t ty = true) : headLen t = 32 := by
  unfold headLen
  by_cases hd : t.isDynamic
  · simp [hd]
  · simp only [hd, if_false, Bool.false_eq_true]
    exact canon_encodeStatic_length hc (by simpa using hd)

theorem tailEnc_length_bytes (bs : List Nat) :
    (tailEnc (.bytes bs)).length = 32 + roundUp32 bs.length := by
  simp [tailEnc, natToBE_length, rightPad32_length]

theorem tailEnc_static {t : Token} (hd : t.isDynamic = false) :
    tailEnc t = [] := by
  cases t <;> simp_all [Token.isDynamic, tailEnc]

theorem encodeAux_fst_length (ts : List Token) (δ : Nat) :
    ((encodeAux ts δ).1).length = headsLen ts := by
  induction ts generalizing δ with
  | nil => rfl
  | cons t ts ih =>
    simp only [encodeAux]
    rw [List.length_append, ih]
    have hh : (if t.isDynamic then natToBE 32 δ else encodeStatic t).length
        = headLen t := by
      unfold headLen
      by_cases hd : t.isDynamic <;> simp [hd, natToBE_length]
    rw [hh]
    simp [headsLen]

theorem encodeAux_snd_length (ts : List Token) (δ : Nat) :
    ((encodeAux ts δ).2).length = tailsLen ts := by
  induction ts generalizing δ with
  | nil => rfl
  | cons t ts ih =>
    simp only [encodeAux, tailsLen, List.map_cons, List.sum_cons]
    rw [List.length_append, ih]
    rfl

/-! ## Round-trip of single parameters -/

theorem decodeParam_static {t : Token} {ty : ParamType}
    (hc : canonMatch t ty = true) (hd : t.isDynamic = false)
    (data : List Nat) (off : Nat)
    (hw : slice32 data off 32 = encodeStatic t)
    (hb : off + 32 ≤ data.length) :
    decodeParam ty data off = .ok ⟨t, off + 32⟩ := by
  have hpeek : peekWord data off = .ok (encodeStatic t) := by
    unfold peekWord
    rw [if_pos hb, hw]
  cases t with
  | address a =>
    cases ty <;> simp [canonMatch] at hc
    simp only [decodeParam, hpeek, encodeStatic]
    rw [List.drop_left' (by simp)]
  | uint n =>
    cases ty <;> simp [canonMatch] at hc
    simp only [decodeParam, hpeek, encodeStatic]
    rw [beToNat_natToBE (by calc n < 2 ^ 256 := hc
                              _ = 256 ^ 32 := by norm_num)]
  | bool b =>
    cases ty <;> simp [canonMatch] at hc
    simp only [decodeParam, hpeek, asBool_encode]
  | fixedBytes bs =>
    cases ty with
    | fixedBytes s =>
      simp only [canonMatch, Bool.and_eq_true, decide_eq_true_eq] at hc
      obtain ⟨⟨h1, h2⟩, h3⟩ := hc
      have htk : takeBytes data off s = .ok bs := by
        unfold takeBytes
        rw [if_pos (by omega), ← slice32_take data off (show s ≤ 32 by omega),
          hw, encodeStatic]
        unfold rightPad32
        rw [List.take_left' h1]
      simp only [decodeParam, htk]
    | _ => simp [canonMatch] at hc
  | bytes bs => simp [Token.isDynamic] at hd

theorem decodeParam_bytes (bs : List Nat) (data : List Nat) (off δ : Nat)
    (hhead : slice32 data off 32 = natToBE 32 δ)
    (htail : slice32 data δ (32 + roundUp32 bs.length) =
      natToBE 32 bs.length ++ rightPad32 bs)
    (hb1 : off + 32 ≤ data.length)
    (hb2 : δ + (32 + roundUp32 bs.length) ≤ data.length)
    (hδ : δ < 2 ^ 32) (hlen : bs.length < 2 ^ 32) :
    decodeParam .bytes data off = .ok ⟨.bytes bs, off + 32⟩ := by
  have hble : bs.length ≤ roundUp32 bs.length := roundUp32_ge _
  have hpeek1 : peekWord data off = .ok (natToBE 32 δ) := by
    unfold peekWord
    rw [if_pos hb1, hhead]
  have hsplit := slice32_split_eq (natToBE_length 32 bs.length) htail (by omega)
  have hpeek2 : peekWord data δ = .ok (natToBE 32 bs.length) := by
    unfold peekWord
    rw [if_pos (by omega), hsplit.1]
  have htake : takeBytes data (δ + 32) bs.length = .ok bs := by
    unfold takeBytes
    rw [if_pos (by omega), ← slice32_take data (δ + 32) hble, hsplit.2]
    unfold rightPad32
    rw [List.take_left' rfl]
  simp only [decodeParam, hpeek1, asUsize_natToBE hδ, hpeek2,
    asUsize_natToBE hlen, htake]

/-! ## Round-trip of the full head/tail layout -/

theorem decodeLoop_roundtrip (ts : List Token) : ∀ (tys : List ParamType),
    canonList ts tys = true → ∀ (data : List Nat) (off δ : Nat),
    slice32 data off (headsLen ts) = (encodeAux ts δ).1 →
    slice32 data δ (tailsLen ts) = (encodeAux ts δ).2 →
    off + headsLen ts ≤ data.length →
    δ + tailsLen ts ≤ data.length →
    data.length < 2 ^ 32 →
    decodeLoop tys data off = .ok ts := by
  induction ts with
  | nil =>
    intro tys hc data off δ hH hT hbH hbT hdata
    cases tys with
    | nil => rfl
    | cons ty tys => simp [canonList] at hc
  | cons t ts ih =>
    intro tys hc data off δ hH hT hbH hbT hdata
    cases tys with
    | nil => simp [canonList] at hc
    | cons ty tys =>
      simp only [canonList, Bool.and_eq_true] at hc
      obtain ⟨hct, hcts⟩ := hc
      have hhl : headLen t = 32 := canon_headLen hct
      have hHL : headsLen (t :: ts) = 32 + headsLen ts := by
        simp [headsLen, hhl]
      have hTL : tailsLen (t :: ts) = (tailEnc t).length + tailsLen ts := by
        simp [tailsLen]
      have hlenh : (if t.isDynamic then natToBE 32 δ else encodeStatic t).length
          = 32 := by
        by_cases hdy : t.isDynamic
        · simp [hdy, natToBE_length]
        · simp only [hdy, if_false, Bool.false_eq_true]
          exact canon_encodeStatic_length hct (by simpa using hdy)
      rw [hHL] at hH hbH
      rw [hTL] at hT hbT
      simp only [encodeAux] at hH hT
      have hHsp := slice32_split_eq hlenh hH (by omega)
      have hTsp := slice32_split_eq (rfl : (tailEnc t).length = _) hT (by omega)
      by_cases hdy : t.isDynamic
      · -- the only dynamic token shape is `bytes`
        cases t with
        | bytes bs =>
          cases ty <;> simp [canonMatch] at hct
          have htl : (tailEnc (Token.bytes bs)).length =
              32 + roundUp32 bs.length := tailEnc_length_bytes bs
          have hble : bs.length ≤ roundUp32 bs.length := roundUp32_ge _
          have hdp : decodeParam .bytes data off = .ok ⟨.bytes bs, off + 32⟩ := by
            refine decodeParam_bytes bs data off δ ?_ ?_ (by omega) ?_ ?_ ?_
            · have := hHsp.1
              simpa [Token.isDynamic] using this
            · have := hTsp.1
              rw [htl] at this
              simpa [tailEnc] using this
            · omega
            · omega
            · omega
          have hrest := ih tys hcts data (off + 32)
            (δ + (tailEnc (Token.bytes bs)).length)
            hHsp.2 hTsp.2 (by omega) (by omega) hdata
          simp only [decodeLoop, hdp, hrest]
        | address a => simp [Token.isDynamic] at hdy
        | uint n => simp [Token.isDynamic] at hdy
        | bool b => simp [Token.isDynamic] at hdy
        | fixedBytes fbs => simp [Token.isDynamic] at hdy
      · have hbe : Bool.not t.isDynamic = true := by simpa using hdy
        have htl0 : tailEnc t = [] := tailEnc_static (by simpa using hdy)
        have hdp : decodeParam ty data off = .ok ⟨t, off + 32⟩ := by
          refine decodeParam_static hct (by simpa using hdy) data off ?_ (by omega)
          have := hHsp.1
          simpa [hdy] using this
        have hrest := ih tys hcts data (off + 32) (δ + (tailEnc t).length)
          hHsp.2 hTsp.2 (by omega) (by simp [htl0] at hbT ⊢; omega) hdata
        simp only [decodeLoop, hdp, hrest]

theorem abi_decode_encode (ts : List Token) (tys : List ParamType)
    (hc : canonList ts tys = true)
    (hdata : (abi_encode ts).length < 2 ^ 32) :
    abi_decode tys (abi_encode ts) = .ok ts := by
  have hfst := encodeAux_fst_length ts (headsLen ts)
  have hsnd := encodeAux_snd_length ts (headsLen ts)
  have hlen : (abi_encode ts).length = headsLen ts + tailsLen ts := by
    unfold abi_encode
    rw [List.length_append, hfst, hsnd]
  have hloop : decodeLoop tys (abi_encode ts) 0 = .ok ts := by
    refine decodeLoop_roundtrip ts tys hc (abi_encode ts) 0 (headsLen ts)
      ?_ ?_ (by omega) (by omega) (by omega)
    · unfold slice32 abi_encode
      rw [List.drop_zero]
      exact List.take_left' hfst
    · unfold slice32 abi_encode
      rw [List.drop_left' hfst, ← hsnd, List.take_length]
  unfold abi_decode
  split
  · rename_i hcond
    exfalso
    obtain ⟨hall, hnil⟩ := hcond
    rw [hnil] at hlen
    simp only [List.length_nil] at hlen
    cases ts with
    | nil =>
      cases tys with
      | nil => exact hall rfl
      | cons ty tys => simp [canonList] at hc
    | cons t ts' =>
      cases tys with
      | nil => simp [canonList] at hc
      | cons ty tys' =>
        simp only [canonList, Bool.and_eq_true] at hc
        have h32 := canon_headLen hc.1
        simp [headsLen, h32] at hlen
        omega
  · exact hloop

/-! ## C7 — decode is a left inverse of encoding a return value -/

/-- C7: for a Contract Descriptor holding a known interface description,
decoding (with `decode(method, bytes)`) the ABI encoding of a known
(well-formed, canonically typed) return value of that method reproduces
the original typed value.  The bound keeps every encoded offset and
length within the 4-byte range `as_usize` accepts. -/
theorem C7_decode_encode_roundtrip (c : Contract) (m : String)
    (f : EthFunction) (ts : List Token)
    (hf : c.abi.function m = .ok f)
    (hc : canonList ts f.outputs = true)
    (hlen : (abi_encode ts).length < 2 ^ 32) :
    c.decode m (abi_encode ts) = some ts := by
  have hdec := abi_decode_encode ts f.outputs hc hlen
  simp only [Contract.decode, hf, EthFunction.decode_output, hdec]

set_option maxRecDepth 8192 in
/-- Witness for C7: a concrete five-component return value — a uint, an
address, a bool, four fixed bytes and a dynamic byte string — survives
the round trip through `demoContract`. -/
theorem C7_decode_encode_roundtrip_witness :
    demoContract.decode "getData" (abi_encode tsDemo) = some tsDemo :=
  C7_decode_encode_roundtrip demoContract "getData" fDemo tsDemo
    rfl (by decide) (by decide)

/-! ## C8 — what encode/decode do on bad input -/

/-- C8 counterexample: the claim that `Contract::encode` /
`Contract::decode` "report a recoverable typed error rather than
terminating abnormally" is false: on an unknown method name, or on
arguments failing the interface's type check, or on undecodable output
bytes, both operations panic (`none` — the `.unwrap()` of the `ethabi`
error), and their return types carry no error variant at all. -/
theorem C8_counterexample :
    demoContract.encode "nosuch" [] = none ∧
    demoContract.encode "getData" [.bool true] = none ∧
    demoContract.decode "nosuch" [] = none ∧
    demoContract.decode "getData" [] = none := by
  refine ⟨by decide, ?_, by decide, by decide⟩
  decide

/-- C8 amended: `Contract::encode` produces the selector-prefixed
call-data bytes when the method exists and the arguments type-check,
and otherwise panics — the unknown-method (`InvalidName`) and
encoding (`InvalidData`) conditions that `ethabi` reports as typed
errors are unwrapped into abnormal termination; symmetrically,
`Contract::decode` produces the typed values exactly when the method
exists and `ethabi`'s decoder succeeds, and panics on any decoding
error rather than reporting it. -/
theorem C8_encode_decode_panic_on_error (c : Contract) (m : String)
    (ts : List Token) (bs : List Nat) :
    (c.encode m ts = none ↔
      c.abi.function m = .error (.invalidName m) ∨
      (∃ f, c.abi.function m = .ok f ∧
        Token.types_check ts f.inputs = false)) ∧
    (∀ f, c.abi.function m = .ok f → Token.types_check ts f.inputs = true →
      c.encode m ts = some (shortSignature f.name f.inputs ++ abi_encode ts)) ∧
    (c.decode m bs = none ↔
      c.abi.function m = .error (.invalidName m) ∨
      (∃ f e, c.abi.function m = .ok f ∧
        abi_decode f.outputs bs = .error e)) ∧
    (∀ f rs, c.abi.function m = .ok f → abi_decode f.outputs bs = .ok rs →
      c.decode m bs = some rs) := by
  have hfun : c.abi.function m = .error (.invalidName m) ∨
      ∃ f, c.abi.function m = .ok f := by
    unfold EthContract.function
    rcases hfind : c.abi.functions.find? fun f => f.name == m with _ | f
    · simp [hfind]
    · simp only [hfind]
      exact Or.inr ⟨f, rfl⟩
  refine ⟨?_, ?_, ?_, ?_⟩
  · rcases hfun with hf | ⟨f, hf⟩
    · simp [Contract.encode, hf]
    · by_cases ht : Token.types_check ts f.inputs
      · simp [Contract.encode, hf, EthFunction.encode_input, ht]
      · simp only [Bool.not_eq_true] at ht
        simp [Contract.encode, hf, EthFunction.encode_input, ht]
  · intro f hf ht
    simp [Contract.encode, hf, EthFunction.encode_input, ht]
  · rcases hfun with hf | ⟨f, hf⟩
    · simp [Contract.decode, hf]
    · rcases hd : abi_decode f.outputs bs with e | rs
      · simp [Contract.decode, hf, EthFunction.decode_output, hd]
      · simp [Contract.decode, hf, EthFunction.decode_output, hd]
  · intro f rs hf hd
    simp [Contract.decode, hf, EthFunction.decode_output, hd]

/-- Witness for the amended C8: a well-typed call to the demonstration
contract's known method encodes to the selector followed by the encoded
arguments. -/
theorem C8_encode_decode_panic_on_error_witness :
    demoContract.encode "getData" [] =
      some (shortSignature "getData" [] ++ abi_encode []) :=
  (C8_encode_decode_panic_on_error demoContract "getData" [] []).2.1
    fDemo rfl (by decide)

end BevyWeb3
